import Mathlib

/-!
# Verification of the pathway-status engine of the kidney-transplant backend

Shallow embedding, translated from the Python sources:

* `app/services/status/computation.py` — catalog loader, pathway stage
  resolver, submission merger, contraindication classifier, aggregator;
* `app/api/status.py` — status-id preservation on recomputation;
* `app/database/cache.py` — the TTL cache;
* `app/database/storage.py` — read-through caching of patient / checklist.

Python dictionaries are modelled as association lists (insertion order,
at most one binding per key via replace-or-append insertion); `None` as
`Option.none`; machine floats: the only float arithmetic in scope is the
checklist completion ratio `completed / total` compared against `0.8`,
which is modelled exactly over `ℚ` (for integer counts `completed ≤ total`
of any realistic checklist size the IEEE-double comparison in Python and
the exact rational comparison agree; the two could only disagree for
checklists with more than ~10^15 items).
-/

/-- Association-list lookup, the model of `dict.get` / `dict[...]`:
first binding of the key wins (real dicts hold each key at most once). -/
def alist_lookup {β : Type} (k : String) : List (String × β) → Option β
  | [] => none
  | (k', v) :: rest => if k = k' then some v else alist_lookup k rest

/-- One checklist item, from checklist JSON: `item.get('is_complete', False)`,
so the flag may be absent (`none`). -/
structure ChecklistItem where
  is_complete : Option Bool
deriving Repr, DecidableEq

/-- A checklist record: `checklist.get('items', [])` with an `items or []`
guard, so the item list itself may be absent or null (`none`). -/
structure Checklist where
  items : Option (List ChecklistItem)
deriving Repr, DecidableEq

/-- The two patient flags read by `determine_pathway_stage`
(`patient.get('has_ckd_esrd')`, `patient.get('has_referral')`); a `none`
patient models a missing (or empty, hence falsy) patient record. -/
structure Patient where
  has_ckd_esrd : Option Bool
  has_referral : Option Bool
deriving Repr, DecidableEq

/-- `patient` truthy and `patient.get('has_ckd_esrd') is False`
(computation.py lines 50–53). -/
def patient_ckd_is_false : Option Patient → Bool
  | some p => p.has_ckd_esrd == some false
  | none => false

/-- `has_referral = patient.get('has_referral') if patient else None`
(computation.py lines 56–58). -/
def patient_referral : Option Patient → Option Bool
  | some p => p.has_referral
  | none => none

/-- `determine_pathway_stage` (computation.py lines 32–102), translated
guard for guard.  `checklist = none` covers both a `None` and an empty
(falsy) checklist dict, which the source treats identically (lines 77 and
102 both yield `'referral'` once `has_questionnaire` holds). -/
def determine_pathway_stage (has_questionnaire : Bool)
    (checklist : Option Checklist) (patient : Option Patient) : String :=
  if patient_ckd_is_false patient then "identification"
  else
    let has_referral := patient_referral patient
    if !has_questionnaire && has_referral == some true then "evaluation"
    else if !has_questionnaire then "identification"
    else if !(has_referral == some true) then "referral"
    else
      match checklist with
      | none => "referral"
      | some c =>
        let items := c.items.getD []
        if items = [] then "referral"
        else
          let completed_items := items.countP (fun it => it.is_complete.getD false)
          let total_items := items.length
          let completion_percentage : ℚ :=
            if 0 < total_items then (completed_items : ℚ) / (total_items : ℚ) else 0
          if completion_percentage < 4 / 5 then "evaluation"
          else if 4 / 5 ≤ completion_percentage then "selection"
          else "referral"

/-- The completion ratio of a concrete item list, for stating boundary
claims: `completed / total` over `ℚ`. -/
def checklist_ratio (items : List ChecklistItem) : ℚ :=
  ((items.countP (fun it => it.is_complete.getD false) : ℚ)) / (items.length : ℚ)

/-- A questionnaire submission as stored in JSON: the fields read by the
roll-up (`submitted_at`, possibly null, and the `answers` dict mapping
question id to answer).  JSON storage yields strings or null for
`submitted_at`, so the datetime branch of `get_sort_key` is dead on this
call path and the key is modelled as `Option String`. -/
structure Questionnaire where
  submitted_at : Option String
  answers : List (String × String)
deriving Repr, DecidableEq

/-- The sort key a submission without `submitted_at` receives
(computation.py line 188). -/
def missing_ts_key : String := "0000-00-00T00:00:00"

/-- `get_sort_key` (computation.py lines 185–194) on JSON-loaded data:
the timestamp string when present, the sentinel when absent. -/
def get_sort_key (q : Questionnaire) : String :=
  q.submitted_at.getD missing_ts_key

/-- Stable insertion of a submission into a list already sorted by
`get_sort_key` descending: `q` goes in front of the first element whose
key is `≤` its own, so an original-earlier element precedes equal keys. -/
def insert_sorted_desc (q : Questionnaire) : List Questionnaire → List Questionnaire
  | [] => [q]
  | x :: xs =>
    if get_sort_key x ≤ get_sort_key q then q :: x :: xs
    else x :: insert_sorted_desc q xs

/-- `sorted(questionnaires, key=get_sort_key, reverse=True)`
(computation.py line 196).  Python's sort is stable, and a stable
descending sort by a fixed key has a unique result (keys descending,
equal keys in original order), which this stable insertion sort produces. -/
def sort_by_submitted_desc : List Questionnaire → List Questionnaire
  | [] => []
  | q :: rest => insert_sorted_desc q (sort_by_submitted_desc rest)

/-- One step of the newest-first merge loop (computation.py lines 203–206):
write the pair only if its question id is not already bound. -/
def insert_if_absent (acc : List (String × String)) (p : String × String) :
    List (String × String) :=
  match alist_lookup p.1 acc with
  | some _ => acc
  | none => acc ++ [p]

/-- The `latest_answers` dict of the roll-up (computation.py lines
198–206): fold the newest-first submission list, first write per
question id wins. -/
def latest_answers (questionnaires : List Questionnaire) : List (String × String) :=
  (sort_by_submitted_desc questionnaires).foldl
    (fun acc q => q.answers.foldl insert_if_absent acc) []

/-- A catalog question as read from `data/questions.json`: id, category
(`'absolute'` / `'relative'`, but any string can appear in the file) and
question text. -/
structure Question where
  id : String
  category : String
  question : String
deriving Repr, DecidableEq

/-- The two possible outcomes of reading `data/questions.json`:
`failure` covers a missing file, an empty file and malformed JSON — the
cases caught as `FileNotFoundError` / `json.JSONDecodeError` by
`load_questions` (computation.py lines 24–29). -/
inductive CatalogRead where
  | failure
  | success (questions : List Question)
deriving Repr, DecidableEq

/-- `load_questions` (computation.py lines 15–29) as a function of the
read outcome: the except branch returns the empty list. -/
def load_questions : CatalogRead → List Question
  | .failure => []
  | .success qs => qs

/-- A derived contraindication (schemas.py `Contraindication`). -/
structure Contraindication where
  id : String
  question : String
deriving Repr, DecidableEq

/-- `question_map = {q['id']: q for q in questions}` then `.get(qid)`
(computation.py lines 215, 220): in a dict comprehension the last entry
with a given id wins, hence the first match in the reversed list. -/
def question_map_lookup (questions : List Question) (qid : String) : Option Question :=
  questions.reverse.find? (fun q => q.id == qid)

/-- Python dict assignment `d[k] = v`: replace in place when the key is
present, append otherwise. -/
def dict_insert {β : Type} (d : List (String × β)) (k : String) (v : β) :
    List (String × β) :=
  if (alist_lookup k d).isSome then
    d.map (fun p => if p.1 = k then (k, v) else p)
  else d ++ [(k, v)]

/-- Processing one `(question_id, answer)` pair of `latest_answers`
(computation.py lines 218–233): only a `'yes'` answer to a catalogued
question inserts into the dict matching the question's category. -/
def classify_step (questions : List Question)
    (acc : List (String × Contraindication) × List (String × Contraindication))
    (p : String × String) :
    List (String × Contraindication) × List (String × Contraindication) :=
  if p.2 = "yes" then
    match question_map_lookup questions p.1 with
    | some qi =>
      if qi.category = "absolute" then
        (dict_insert acc.1 p.1 ⟨p.1, qi.question⟩, acc.2)
      else if qi.category = "relative" then
        (acc.1, dict_insert acc.2 p.1 ⟨p.1, qi.question⟩)
      else acc
    | none => acc
  else acc

/-- The absolute / relative contraindication dicts of the roll-up
(computation.py lines 208–233), including the `if questions:` guard. -/
def contraindication_dicts (questions : List Question)
    (latest : List (String × String)) :
    List (String × Contraindication) × List (String × Contraindication) :=
  if questions = [] then ([], [])
  else latest.foldl (classify_step questions) ([], [])

/-- The `PatientStatus` record (schemas.py) restricted to the fields the
status engine computes; `updated_at` (a wall-clock default) is outside
the embedded logic. -/
structure PatientStatus where
  id : Option String
  patient_id : String
  has_absolute : Bool
  has_relative : Bool
  absolute_contraindications : List Contraindication
  relative_contraindications : List Contraindication
  pathway_stage : String
deriving Repr, DecidableEq

/-- `create_initial_status` (computation.py lines 258–288), with the
storage reads (`get_patient`, `get_checklist`) passed in as values. -/
def create_initial_status (checklist : Option Checklist)
    (patient : Option Patient) (patient_id : String) : PatientStatus :=
  { id := none
    patient_id := patient_id
    has_absolute := false
    has_relative := false
    absolute_contraindications := []
    relative_contraindications := []
    pathway_stage := determine_pathway_stage false checklist patient }

/-- `compute_patient_status_from_all_questionnaires` (computation.py
lines 158–255), with the storage reads (questionnaire list, question
catalog, checklist, patient) passed in as values. -/
def compute_patient_status_from_all_questionnaires
    (questionnaires : List Questionnaire) (questions : List Question)
    (checklist : Option Checklist) (patient : Option Patient)
    (patient_id : String) : PatientStatus :=
  if questionnaires = [] then create_initial_status checklist patient patient_id
  else
    let latest := latest_answers questionnaires
    let dicts := contraindication_dicts questions latest
    let absolute_contraindications := dicts.1.map Prod.snd
    let relative_contraindications := dicts.2.map Prod.snd
    { id := none
      patient_id := patient_id
      has_absolute := decide (0 < absolute_contraindications.length)
      has_relative := decide (0 < relative_contraindications.length)
      absolute_contraindications := absolute_contraindications
      relative_contraindications := relative_contraindications
      pathway_stage := determine_pathway_stage true checklist patient }

/-- Python truthiness of an optional string (`None` and `''` are falsy). -/
def str_truthy : Option String → Bool
  | none => false
  | some s => !(s == "")

/-- The persisted status record as far as the id-preservation logic reads
it: its `id` field (possibly absent). -/
structure StoredStatus where
  id : Option String
deriving Repr, DecidableEq

/-- The id-preservation block of the `/patient-status` handler
(status.py lines 45–54): keep a truthy existing id; otherwise mint a
fresh uuid only when the computed status has no truthy id of its own. -/
def resolve_status_id (existing_status : Option StoredStatus)
    (computed_id : Option String) (fresh_uuid : String) : Option String :=
  if (match existing_status with
      | some e => str_truthy e.id
      | none => false) then
    match existing_status with
    | some e => e.id
    | none => none
  else if !(str_truthy computed_id) then some fresh_uuid
  else computed_id

/-- One entry of the TTL cache's backing dict: `(value, expiry)`
(cache.py line 35).  Time is modelled over `ℚ`. -/
structure CacheEntry (α : Type) where
  value : α
  expiry : ℚ
deriving Repr, DecidableEq

/-- `TTLCache.set` (cache.py lines 31–35): store with expiry `now + ttl`. -/
def cache_set {α : Type} (ttl now : ℚ) (st : List (String × CacheEntry α))
    (k : String) (v : α) : List (String × CacheEntry α) :=
  dict_insert st k ⟨v, now + ttl⟩

/-- `del self._cache[key]`: drop the binding. -/
def cache_delete {α : Type} (st : List (String × CacheEntry α)) (k : String) :
    List (String × CacheEntry α) :=
  st.filter (fun p => !(p.1 == k))

/-- `TTLCache.get` (cache.py lines 19–29): a hit while `now < expiry`
returns the value; an expired entry is deleted and the call returns
absent.  Returns the value and the updated backing dict. -/
def cache_get {α : Type} (now : ℚ) (st : List (String × CacheEntry α))
    (k : String) : Option α × List (String × CacheEntry α) :=
  match alist_lookup k st with
  | some e => if now < e.expiry then (some e.value, st) else (none, cache_delete st k)
  | none => (none, st)

/-- `TTLCache.invalidate` (cache.py lines 37–41). -/
def cache_invalidate {α : Type} (st : List (String × CacheEntry α)) (k : String) :
    List (String × CacheEntry α) :=
  cache_delete st k

/-- `TTLCache.clear` (cache.py lines 43–46). -/
def cache_clear {α : Type} (_st : List (String × CacheEntry α)) :
    List (String × CacheEntry α) :=
  []

/-- Read-through checklist read (storage.py `get_checklist`): the cache
state is abstracted to hit (`some`) or miss (`none`, covering expiry);
on a miss the file value is returned and cached when non-null.  Returns
the value and the new cache state. -/
def get_checklist_cached (cache : Option Checklist) (file : Option Checklist) :
    Option Checklist × Option Checklist :=
  match cache with
  | some c => (some c, some c)
  | none =>
    match file with
    | some c => (some c, some c)
    | none => (none, none)

/-- Read-through patient read (storage.py `get_patient`), same shape. -/
def get_patient_cached (cache : Option Patient) (file : Option Patient) :
    Option Patient × Option Patient :=
  match cache with
  | some p => (some p, some p)
  | none =>
    match file with
    | some p => (some p, some p)
    | none => (none, none)

/-- The persisted inputs one status computation reads. -/
structure StoreState where
  questionnaires : List Questionnaire
  catalog : CatalogRead
  checklist_file : Option Checklist
  patient_file : Option Patient
deriving Repr, DecidableEq

/-- One run of the aggregator against fixed persisted state and the two
read-through caches it consults; returns the status and the updated
cache states. -/
def compute_status_run (store : StoreState) (checklist_cache : Option Checklist)
    (patient_cache : Option Patient) (patient_id : String) :
    PatientStatus × Option Checklist × Option Patient :=
  let cl := get_checklist_cached checklist_cache store.checklist_file
  let pt := get_patient_cached patient_cache store.patient_file
  (compute_patient_status_from_all_questionnaires store.questionnaires
     (load_questions store.catalog) cl.1 pt.1 patient_id, cl.2, pt.2)

/-- A cache state is coherent with the file when any hit returns exactly
the persisted value (true of every state reachable without intervening
writes, and of the empty/expired cache). -/
def cache_coherent {α : Type} (file cache : Option α) : Prop :=
  ∀ c, cache = some c → file = some c

/-- Invariant of the two classification dicts: keys are unique, every
stored contraindication carries its key as id, and every key classifies
(via the question map) into the dict's own category. -/
def cdicts_inv (questions : List Question)
    (acc : List (String × Contraindication) × List (String × Contraindication)) : Prop :=
  (acc.1.map Prod.fst).Nodup ∧ (acc.2.map Prod.fst).Nodup
  ∧ (∀ p ∈ acc.1, p.2.id = p.1
      ∧ ∃ qi, question_map_lookup questions p.1 = some qi ∧ qi.category = "absolute")
  ∧ (∀ p ∈ acc.2, p.2.id = p.1
      ∧ ∃ qi, question_map_lookup questions p.1 = some qi ∧ qi.category = "relative")

/-- Lookup distributes over append, first list first. -/
theorem alist_lookup_append {β : Type} (k : String) (l₁ l₂ : List (String × β)) :
    alist_lookup k (l₁ ++ l₂) = (alist_lookup k l₁).or (alist_lookup k l₂) := by
  induction l₁ with
  | nil => simp [alist_lookup]
  | cons p rest ih =>
    by_cases h : k = p.1
    · simp [alist_lookup, h]
    · simp [alist_lookup, h, ih]

/-- Lookup after one conditional insertion. -/
theorem insert_if_absent_lookup (k : String) (acc : List (String × String))
    (p : String × String) :
    alist_lookup k (insert_if_absent acc p)
      = (alist_lookup k acc).or (if k = p.1 then some p.2 else none) := by
  unfold insert_if_absent
  cases habs : alist_lookup p.1 acc with
  | some v =>
    by_cases h : k = p.1
    · subst h
      simp [habs]
    · simp [h]
  | none =>
    rw [alist_lookup_append]
    by_cases h : k = p.1
    · subst h
      simp [alist_lookup, habs]
    · simp [alist_lookup, h]

/-- Lookup after folding a whole answer list through `insert_if_absent`:
the accumulator wins, then the first occurrence in the answer list. -/
theorem foldl_insert_if_absent_lookup (ps : List (String × String)) (k : String) :
    ∀ acc, alist_lookup k (ps.foldl insert_if_absent acc)
      = (alist_lookup k acc).or (alist_lookup k ps) := by
  induction ps with
  | nil => intro acc; simp [alist_lookup]
  | cons p rest ih =>
    intro acc
    rw [List.foldl_cons, ih, insert_if_absent_lookup]
    by_cases h : k = p.1
    · simp [alist_lookup, h, Option.or_assoc]
    · simp [alist_lookup, h]

/-- Lookup in the merged map equals first-occurrence lookup in the
newest-first concatenation of all answer lists. -/
theorem latest_answers_lookup_flat (qs : List Questionnaire) (k : String) :
    alist_lookup k (latest_answers qs)
      = alist_lookup k ((sort_by_submitted_desc qs).flatMap (·.answers)) := by
  suffices h : ∀ (S : List Questionnaire) (acc : List (String × String)),
      alist_lookup k (S.foldl (fun acc q => q.answers.foldl insert_if_absent acc) acc)
        = (alist_lookup k acc).or (alist_lookup k (S.flatMap (·.answers))) by
    rw [latest_answers, h]
    simp [alist_lookup]
  intro S
  induction S with
  | nil => intro acc; simp [alist_lookup]
  | cons q rest ih =>
    intro acc
    rw [List.foldl_cons, ih, foldl_insert_if_absent_lookup, List.flatMap_cons,
      alist_lookup_append, Option.or_assoc]

/-- Inserting into the sorted list is a permutation of consing. -/
theorem insert_sorted_desc_perm (q : Questionnaire) (L : List Questionnaire) :
    (insert_sorted_desc q L).Perm (q :: L) := by
  induction L with
  | nil => simp [insert_sorted_desc]
  | cons x xs ih =>
    unfold insert_sorted_desc
    by_cases h : get_sort_key x ≤ get_sort_key q
    · simp [h]
    · rw [if_neg h]
      exact (ih.cons x).trans (List.Perm.swap q x xs)

/-- The stable sort is a permutation of its input. -/
theorem sort_by_submitted_desc_perm (qs : List Questionnaire) :
    (sort_by_submitted_desc qs).Perm qs := by
  induction qs with
  | nil => simp [sort_by_submitted_desc]
  | cons q rest ih =>
    exact (insert_sorted_desc_perm q _).trans (ih.cons q)

/-- Insertion preserves descending sortedness by `get_sort_key`. -/
theorem insert_sorted_desc_pairwise (q : Questionnaire) (L : List Questionnaire)
    (h : L.Pairwise (fun a b => get_sort_key b ≤ get_sort_key a)) :
    (insert_sorted_desc q L).Pairwise (fun a b => get_sort_key b ≤ get_sort_key a) := by
  induction L with
  | nil => simp [insert_sorted_desc]
  | cons x xs ih =>
    rcases List.pairwise_cons.mp h with ⟨hx, hxs⟩
    unfold insert_sorted_desc
    by_cases hle : get_sort_key x ≤ get_sort_key q
    · rw [if_pos hle]
      refine List.pairwise_cons.mpr ⟨?_, h⟩
      intro y hy
      rcases List.mem_cons.mp hy with rfl | hy'
      · exact hle
      · exact le_trans (hx y hy') hle
    · rw [if_neg hle]
      refine List.pairwise_cons.mpr ⟨?_, ih hxs⟩
      intro y hy
      rcases List.mem_cons.mp ((insert_sorted_desc_perm q xs).mem_iff.mp hy) with rfl | hy'
      · exact le_of_not_le hle
      · exact hx y hy'

/-- The stable sort is sorted descending by `get_sort_key`. -/
theorem sort_by_submitted_desc_pairwise (qs : List Questionnaire) :
    (sort_by_submitted_desc qs).Pairwise
      (fun a b => get_sort_key b ≤ get_sort_key a) := by
  induction qs with
  | nil => simp [sort_by_submitted_desc]
  | cons q rest ih => exact insert_sorted_desc_pairwise q _ ih

/-- C1: a present patient record with `has_ckd_esrd = false` always
resolves to `'identification'`, whatever the questionnaire flag, the
referral state and the checklist. -/
theorem determine_pathway_stage_ckd_false (has_questionnaire : Bool)
    (checklist : Option Checklist) (p : Patient)
    (h : p.has_ckd_esrd = some false) :
    determine_pathway_stage has_questionnaire checklist (some p) = "identification" := by
  simp [determine_pathway_stage, patient_ckd_is_false, h]

/-- Witness for C1 at a concrete input. -/
theorem determine_pathway_stage_ckd_false_witness :
    determine_pathway_stage true
      (some ⟨some [⟨some true⟩]⟩) (some ⟨some false, some true⟩) = "identification" :=
  determine_pathway_stage_ckd_false true (some ⟨some [⟨some true⟩]⟩)
    ⟨some false, some true⟩ rfl

/-- Helper: on the evaluation/selection branch of the resolver, the
completion ratio alone decides the stage. -/
theorem determine_stage_ratio_cases (p : Patient) (c : Checklist)
    (h1 : p.has_ckd_esrd ≠ some false) (h2 : p.has_referral = some true)
    (h3 : c.items.getD [] ≠ []) :
    ((4 / 5 : ℚ) ≤ checklist_ratio (c.items.getD []) →
       determine_pathway_stage true (some c) (some p) = "selection")
    ∧ (checklist_ratio (c.items.getD []) < (4 / 5 : ℚ) →
       determine_pathway_stage true (some c) (some p) = "evaluation") := by
  have hck : patient_ckd_is_false (some p) = false := by
    simp [patient_ckd_is_false]
    exact h1
  have hlen : 0 < (c.items.getD []).length := List.length_pos.mpr h3
  constructor
  · intro hr
    simp only [checklist_ratio] at hr
    simp only [determine_pathway_stage, hck, Bool.false_eq_true, if_false,
      patient_referral, h2, Bool.not_true, Bool.false_and, Bool.not_false,
      beq_self_eq_true, Bool.not_eq_true', if_true, h3, hlen, if_pos, if_neg]
    rw [if_neg (not_lt.mpr hr), if_pos hr]
  · intro hr
    simp only [checklist_ratio] at hr
    simp only [determine_pathway_stage, hck, Bool.false_eq_true, if_false,
      patient_referral, h2, Bool.not_true, Bool.false_and, Bool.not_false,
      beq_self_eq_true, Bool.not_eq_true', if_true, h3, hlen, if_pos, if_neg]
    rw [if_pos hr]

/-- C4: with a questionnaire, `has_referral = true`, `has_ckd_esrd` not
false, and a non-empty checklist, the resolver yields `'selection'` exactly
when the completion ratio reaches 4/5 and `'evaluation'` below it; in
particular 4-of-5 complete (ratio exactly 0.8) gives `'selection'` and a
79-of-100 checklist (ratio 0.79) gives `'evaluation'`. -/
theorem determine_pathway_stage_checklist_boundary (p : Patient) (c : Checklist)
    (h1 : p.has_ckd_esrd ≠ some false) (h2 : p.has_referral = some true)
    (h3 : c.items.getD [] ≠ []) :
    (((4 / 5 : ℚ) ≤ checklist_ratio (c.items.getD []) →
       determine_pathway_stage true (some c) (some p) = "selection")
    ∧ (checklist_ratio (c.items.getD []) < (4 / 5 : ℚ) →
       determine_pathway_stage true (some c) (some p) = "evaluation"))
    ∧ checklist_ratio [⟨some true⟩, ⟨some true⟩, ⟨some true⟩, ⟨some true⟩, ⟨some false⟩]
        = 4 / 5
    ∧ determine_pathway_stage true
        (some ⟨some [⟨some true⟩, ⟨some true⟩, ⟨some true⟩, ⟨some true⟩, ⟨some false⟩]⟩)
        (some ⟨some true, some true⟩) = "selection"
    ∧ checklist_ratio
        (List.replicate 79 ⟨some true⟩ ++ List.replicate 21 (⟨some false⟩ : ChecklistItem))
        = 79 / 100
    ∧ determine_pathway_stage true
        (some ⟨some (List.replicate 79 ⟨some true⟩ ++ List.replicate 21 ⟨some false⟩)⟩)
        (some ⟨some true, some true⟩) = "evaluation" := by
  have hfive : checklist_ratio
      [⟨some true⟩, ⟨some true⟩, ⟨some true⟩, ⟨some true⟩, ⟨some false⟩] = 4 / 5 := by
    norm_num [checklist_ratio]
  have hhundred : checklist_ratio
      (List.replicate 79 ⟨some true⟩ ++ List.replicate 21 (⟨some false⟩ : ChecklistItem))
      = 79 / 100 := by
    norm_num [checklist_ratio, List.countP_append, List.countP_replicate]
  refine ⟨determine_stage_ratio_cases p c h1 h2 h3, hfive, ?_, hhundred, ?_⟩
  · exact (determine_stage_ratio_cases ⟨some true, some true⟩
      ⟨some [⟨some true⟩, ⟨some true⟩, ⟨some true⟩, ⟨some true⟩, ⟨some false⟩]⟩
      (by simp) rfl (by simp)).1 (by rw [Option.getD, hfive])
  · exact (determine_stage_ratio_cases ⟨some true, some true⟩
      ⟨some (List.replicate 79 ⟨some true⟩ ++ List.replicate 21 ⟨some false⟩)⟩
      (by simp) rfl (by simp)).2 (by rw [Option.getD, hhundred]; norm_num)

/-- Witness for C4 at a concrete input: the 4-of-5 checklist. -/
theorem determine_pathway_stage_checklist_boundary_witness :
    determine_pathway_stage true
      (some ⟨some [⟨some true⟩, ⟨some true⟩, ⟨some true⟩, ⟨some true⟩, ⟨some false⟩]⟩)
      (some ⟨some true, some true⟩) = "selection" :=
  (determine_pathway_stage_checklist_boundary ⟨some true, some true⟩
    ⟨some [⟨some true⟩, ⟨some true⟩, ⟨some true⟩, ⟨some true⟩, ⟨some false⟩]⟩
    (by simp) rfl (by simp)).2.2.1

/-- In a descending-sorted submission list, a successful first-occurrence
lookup over the concatenated answer lists is served by a submission of
maximal sort key among those answering the question. -/
theorem lookup_flat_max (S : List Questionnaire)
    (hS : S.Pairwise (fun a b => get_sort_key b ≤ get_sort_key a))
    (k a : String)
    (h : alist_lookup k (S.flatMap (·.answers)) = some a) :
    ∃ q ∈ S, alist_lookup k q.answers = some a ∧
      ∀ q' ∈ S, (alist_lookup k q'.answers).isSome →
        get_sort_key q' ≤ get_sort_key q := by
  induction S with
  | nil => simp [alist_lookup] at h
  | cons q rest ih =>
    rcases List.pairwise_cons.mp hS with ⟨hq, hrest⟩
    rw [List.flatMap_cons, alist_lookup_append] at h
    cases hqa : alist_lookup k q.answers with
    | some v =>
      rw [hqa] at h
      simp at h
      refine ⟨q, List.mem_cons_self q rest, by rw [hqa, h], ?_⟩
      intro q' hq' _
      rcases List.mem_cons.mp hq' with rfl | hmem
      · exact le_refl _
      · exact hq q' hmem
    | none =>
      rw [hqa, Option.none_or] at h
      rcases ih hrest h with ⟨q₀, hmem₀, hlk₀, hmax₀⟩
      refine ⟨q₀, List.mem_cons_of_mem _ hmem₀, hlk₀, ?_⟩
      intro q' hq' hsome
      rcases List.mem_cons.mp hq' with rfl | hmem
      · rw [hqa] at hsome
        simp at hsome
      · exact hmax₀ q' hmem hsome

/-- If some submission in the list answers the question, the lookup over
the concatenated answer lists succeeds. -/
theorem lookup_flat_isSome (S : List Questionnaire) (k : String)
    (h : ∃ q ∈ S, (alist_lookup k q.answers).isSome) :
    (alist_lookup k (S.flatMap (·.answers))).isSome := by
  induction S with
  | nil => simp at h
  | cons q rest ih =>
    rw [List.flatMap_cons, alist_lookup_append]
    cases hqa : alist_lookup k q.answers with
    | some v => simp
    | none =>
      rw [Option.none_or]
      rcases h with ⟨q', hmem, hsome⟩
      rcases List.mem_cons.mp hmem with rfl | hmem'
      · rw [hqa] at hsome
        simp at hsome
      · exact ih ⟨q', hmem', hsome⟩

/-- C2: the merge step binds each question id to the answer of a
submission whose sort key is maximal among the submissions answering it;
under the data model's timestamps (ISO renderings of datetimes, hence
lexicographically above the `'0000-00-00T00:00:00'` sentinel) a
submission with an absent `submitted_at` never overrides an answer of a
timestamped one; and in the concrete two-submission scenario the newer
`'no'` wins, so the contraindication set excludes `q1`. -/
theorem latest_answers_latest_wins (qs : List Questionnaire)
    (hts : ∀ q ∈ qs, ∀ t, q.submitted_at = some t → missing_ts_key < t) :
    (∀ k a, alist_lookup k (latest_answers qs) = some a →
       ∃ q ∈ qs, alist_lookup k q.answers = some a ∧
         ∀ q' ∈ qs, (alist_lookup k q'.answers).isSome →
           get_sort_key q' ≤ get_sort_key q)
    ∧ (∀ k, (∃ q ∈ qs, q.submitted_at ≠ none ∧ (alist_lookup k q.answers).isSome) →
        ∃ q ∈ qs, q.submitted_at ≠ none ∧
          alist_lookup k (latest_answers qs) = alist_lookup k q.answers)
    ∧ alist_lookup "q1" (latest_answers
        [⟨some "2024-01-01T00:00:00", [("q1", "yes")]⟩,
         ⟨some "2024-06-01T00:00:00", [("q1", "no")]⟩]) = some "no"
    ∧ (compute_patient_status_from_all_questionnaires
        [⟨some "2024-01-01T00:00:00", [("q1", "yes")]⟩,
         ⟨some "2024-06-01T00:00:00", [("q1", "no")]⟩]
        [⟨"q1", "absolute", "Q1?"⟩] none none "p1").absolute_contraindications = [] := by
  have hperm := sort_by_submitted_desc_perm qs
  have hpair := sort_by_submitted_desc_pairwise qs
  have hcmp : ¬ (("2024-06-01T00:00:00" : String) ≤ "2024-01-01T00:00:00") := by
    simp
    decide
  have hlatest : latest_answers
      [⟨some "2024-01-01T00:00:00", [("q1", "yes")]⟩,
       ⟨some "2024-06-01T00:00:00", [("q1", "no")]⟩] = [("q1", "no")] := by
    simp [latest_answers, sort_by_submitted_desc, insert_sorted_desc, get_sort_key,
      hcmp, insert_if_absent, alist_lookup]
  have hconcrete : (compute_patient_status_from_all_questionnaires
      [⟨some "2024-01-01T00:00:00", [("q1", "yes")]⟩,
       ⟨some "2024-06-01T00:00:00", [("q1", "no")]⟩]
      [⟨"q1", "absolute", "Q1?"⟩] none none "p1").absolute_contraindications = [] := by
    rw [compute_patient_status_from_all_questionnaires]
    simp [hlatest, contraindication_dicts, classify_step]
  refine ⟨?_, ?_, by rw [hlatest]; simp [alist_lookup], hconcrete⟩
  · intro k a h
    rw [latest_answers_lookup_flat] at h
    rcases lookup_flat_max _ hpair k a h with ⟨q, hmem, hlk, hmax⟩
    exact ⟨q, hperm.mem_iff.mp hmem, hlk,
      fun q' hq' hs => hmax q' (hperm.mem_iff.mpr hq') hs⟩
  · rintro k ⟨q, hmem, hts', hsome⟩
    have hS : (alist_lookup k ((sort_by_submitted_desc qs).flatMap (·.answers))).isSome :=
      lookup_flat_isSome _ k ⟨q, hperm.mem_iff.mpr hmem, hsome⟩
    obtain ⟨a, ha⟩ := Option.isSome_iff_exists.mp hS
    rcases lookup_flat_max _ hpair k a ha with ⟨q₀, hmem₀, hlk₀, hmax₀⟩
    have hkey : get_sort_key q ≤ get_sort_key q₀ :=
      hmax₀ q (hperm.mem_iff.mpr hmem) hsome
    cases ht : q.submitted_at with
    | none => exact absurd ht hts'
    | some t =>
      have htlt : missing_ts_key < t := hts q hmem t ht
      have hq₀ts : q₀.submitted_at ≠ none := by
        intro hnone
        rw [get_sort_key, ht, Option.getD_some, get_sort_key, hnone,
          Option.getD_none] at hkey
        exact lt_irrefl _ (lt_of_lt_of_le htlt hkey)
      refine ⟨q₀, hperm.mem_iff.mp hmem₀, hq₀ts, ?_⟩
      rw [latest_answers_lookup_flat, ha, hlk₀]

/-- Witness for C2: the theorem applied at the concrete two-submission
input, timestamps discharged against the sentinel. -/
theorem latest_answers_latest_wins_witness :
    alist_lookup "q1" (latest_answers
      [⟨some "2024-01-01T00:00:00", [("q1", "yes")]⟩,
       ⟨some "2024-06-01T00:00:00", [("q1", "no")]⟩]) = some "no" :=
  (latest_answers_latest_wins
    [⟨some "2024-01-01T00:00:00", [("q1", "yes")]⟩,
     ⟨some "2024-06-01T00:00:00", [("q1", "no")]⟩]
    (by
      intro q hq t ht
      rcases List.mem_cons.mp hq with rfl | hq'
      · simp only [Questionnaire.mk.injEq] at ht ⊢
        simp at ht
        subst ht
        rw [missing_ts_key]
        simp
        decide
      · rcases List.mem_cons.mp hq' with rfl | hq''
        · simp at ht
          subst ht
          rw [missing_ts_key]
          simp
          decide
        · simp at hq'')).2.2.1

/-- C5: with zero submissions the aggregator returns the initial status —
no contraindications, flags false, stage resolved with
`has_questionnaire = false` from the current flags and checklist — and in
particular the flags `{hasCkd: true, hasReferral: true}` give stage
`'evaluation'` with `has_absolute = false`. -/
theorem compute_status_no_questionnaires (questions : List Question)
    (checklist : Option Checklist) (patient : Option Patient) (pid : String) :
    compute_patient_status_from_all_questionnaires [] questions checklist patient pid
      = { id := none, patient_id := pid, has_absolute := false, has_relative := false,
          absolute_contraindications := [], relative_contraindications := [],
          pathway_stage := determine_pathway_stage false checklist patient }
    ∧ (compute_patient_status_from_all_questionnaires [] questions checklist
        (some ⟨some true, some true⟩) pid).pathway_stage = "evaluation"
    ∧ (compute_patient_status_from_all_questionnaires [] questions checklist
        (some ⟨some true, some true⟩) pid).has_absolute = false := by
  refine ⟨rfl, ?_, rfl⟩
  rw [compute_patient_status_from_all_questionnaires]
  simp [create_initial_status, determine_pathway_stage, patient_ckd_is_false,
    patient_referral]

/-- C8: a failed catalog read (missing, empty or malformed file) yields the
empty question list, and with an empty catalog the classifier returns
empty buckets and the computed status carries no contraindications and
false flags, for every submission history. -/
theorem load_questions_failure_safe (qs : List Questionnaire)
    (checklist : Option Checklist) (patient : Option Patient) (pid : String) :
    load_questions .failure = []
    ∧ (∀ latest, contraindication_dicts (load_questions .failure) latest = ([], []))
    ∧ (compute_patient_status_from_all_questionnaires qs (load_questions .failure)
        checklist patient pid).has_absolute = false
    ∧ (compute_patient_status_from_all_questionnaires qs (load_questions .failure)
        checklist patient pid).has_relative = false
    ∧ (compute_patient_status_from_all_questionnaires qs (load_questions .failure)
        checklist patient pid).absolute_contraindications = []
    ∧ (compute_patient_status_from_all_questionnaires qs (load_questions .failure)
        checklist patient pid).relative_contraindications = [] := by
  refine ⟨rfl, fun latest => rfl, ?_, ?_, ?_, ?_⟩ <;>
  · rw [compute_patient_status_from_all_questionnaires]
    by_cases h : qs = []
    · simp [h, create_initial_status]
    · simp [h, contraindication_dicts, load_questions]

/-- C6: the id-preservation step of the `/patient-status` handler keeps a
truthy persisted id unchanged; a fresh uuid is assigned exactly on first
creation (no persisted record, no computed id); and when a truthy
persisted id exists the handler never replaces it with the fresh uuid. -/
theorem resolve_status_id_preserves (existing : Option StoredStatus)
    (computed_id : Option String) (fresh : String) :
    (∀ e, existing = some e → str_truthy e.id = true →
       resolve_status_id existing computed_id fresh = e.id)
    ∧ (existing = none → computed_id = none →
       resolve_status_id existing computed_id fresh = some fresh)
    ∧ (∀ e, existing = some e → str_truthy e.id = true →
       resolve_status_id existing computed_id fresh = some fresh →
       e.id = some fresh) := by
  have h1 : ∀ e, existing = some e → str_truthy e.id = true →
      resolve_status_id existing computed_id fresh = e.id := by
    rintro e rfl h
    simp [resolve_status_id, h]
  refine ⟨h1, ?_, fun e he h hf => by rw [h1 e he h] at hf; exact hf⟩
  rintro rfl rfl
  simp [resolve_status_id, str_truthy]

/-- Witness for C6: an existing persisted id survives recomputation. -/
theorem resolve_status_id_preserves_witness :
    resolve_status_id (some ⟨some "status-1"⟩) none "fresh-uuid" = some "status-1" :=
  (resolve_status_id_preserves (some ⟨some "status-1"⟩) none "fresh-uuid").1
    ⟨some "status-1"⟩ rfl (by simp [str_truthy])

/-- A coherent read-through checklist read returns the persisted value and
leaves a cache state that again mirrors the persisted value. -/
theorem get_checklist_cached_eq (file cache : Option Checklist)
    (h : cache_coherent file cache) :
    get_checklist_cached cache file = (file, file) := by
  cases cache with
  | some c => simp [get_checklist_cached, h c rfl]
  | none => cases file <;> rfl

/-- A coherent read-through patient read returns the persisted value and
leaves a cache state that again mirrors the persisted value. -/
theorem get_patient_cached_eq (file cache : Option Patient)
    (h : cache_coherent file cache) :
    get_patient_cached cache file = (file, file) := by
  cases cache with
  | some p => simp [get_patient_cached, h p rfl]
  | none => cases file <;> rfl

/-- C7: against fixed persisted state (no intervening writes), two runs of
the status computation — whatever coherent cache states they start from —
produce the same pathway stage and set-equal contraindication lists, and
each run leaves coherent caches behind (so in particular running twice in
sequence is covered). -/
theorem compute_status_idempotent (store : StoreState)
    (c1 c2 : Option Checklist) (p1 p2 : Option Patient) (pid : String)
    (hc1 : cache_coherent store.checklist_file c1)
    (hp1 : cache_coherent store.patient_file p1)
    (hc2 : cache_coherent store.checklist_file c2)
    (hp2 : cache_coherent store.patient_file p2) :
    ((compute_status_run store c1 p1 pid).1.pathway_stage
       = (compute_status_run store c2 p2 pid).1.pathway_stage)
    ∧ (∀ x, x ∈ (compute_status_run store c1 p1 pid).1.absolute_contraindications ↔
         x ∈ (compute_status_run store c2 p2 pid).1.absolute_contraindications)
    ∧ (∀ x, x ∈ (compute_status_run store c1 p1 pid).1.relative_contraindications ↔
         x ∈ (compute_status_run store c2 p2 pid).1.relative_contraindications)
    ∧ cache_coherent store.checklist_file (compute_status_run store c1 p1 pid).2.1
    ∧ cache_coherent store.patient_file (compute_status_run store c1 p1 pid).2.2 := by
  have e1 : compute_status_run store c1 p1 pid
      = compute_status_run store c2 p2 pid := by
    rw [compute_status_run, compute_status_run,
      get_checklist_cached_eq _ _ hc1, get_checklist_cached_eq _ _ hc2,
      get_patient_cached_eq _ _ hp1, get_patient_cached_eq _ _ hp2]
  have e2 : (compute_status_run store c1 p1 pid).2.1 = store.checklist_file := by
    rw [compute_status_run, get_checklist_cached_eq _ _ hc1,
      get_patient_cached_eq _ _ hp1]
  have e3 : (compute_status_run store c1 p1 pid).2.2 = store.patient_file := by
    rw [compute_status_run, get_checklist_cached_eq _ _ hc1,
      get_patient_cached_eq _ _ hp1]
  refine ⟨by rw [e1], fun x => by rw [e1], fun x => by rw [e1], ?_, ?_⟩
  · rw [e2]
    intro c hc
    exact hc
  · rw [e3]
    intro p hp
    exact hp

/-- Witness for C7 at a concrete store with empty (hence coherent) caches. -/
theorem compute_status_idempotent_witness :
    (compute_status_run ⟨[], .failure, none, none⟩ none none "p").1.pathway_stage
      = (compute_status_run ⟨[], .failure, none, none⟩ none none "p").1.pathway_stage :=
  (compute_status_idempotent ⟨[], .failure, none, none⟩ none none none none "p"
    (fun c h => by cases h) (fun p h => by cases h)
    (fun c h => by cases h) (fun p h => by cases h)).1

/-- After a dict assignment the assigned key maps to the new value. -/
theorem dict_insert_lookup {β : Type} (d : List (String × β)) (k : String) (v : β) :
    alist_lookup k (dict_insert d k v) = some v := by
  unfold dict_insert
  by_cases h : (alist_lookup k d).isSome
  · rw [if_pos h]
    induction d with
    | nil => simp [alist_lookup] at h
    | cons p rest ih =>
      by_cases hk : k = p.1
      · rw [List.map_cons, if_pos hk.symm]
        simp [alist_lookup]
      · have hp1 : ¬(p.1 = k) := fun hh => hk hh.symm
        rw [List.map_cons, if_neg hp1]
        simp only [alist_lookup] at h ⊢
        rw [if_neg hk] at h ⊢
        exact ih h
  · rw [if_neg h]
    rw [alist_lookup_append]
    rw [Option.not_isSome_iff_eq_none.mp h]
    simp [alist_lookup]

/-- Deleting a key removes its binding. -/
theorem cache_delete_lookup {α : Type} (st : List (String × CacheEntry α)) (k : String) :
    alist_lookup k (cache_delete st k) = none := by
  induction st with
  | nil => rfl
  | cons p rest ih =>
    rw [cache_delete, List.filter_cons]
    by_cases h : p.1 = k
    · simp only [h, beq_self_eq_true, Bool.not_true, Bool.false_eq_true, if_false]
      exact ih
    · have : (!(p.1 == k)) = true := by simp [h]
      rw [if_pos this, alist_lookup]
      rw [if_neg (fun hh => h hh.symm)]
      exact ih

/-- C9: `set` stores the value with expiry `now + ttl`; a `get` at or past
the expiry returns absent and evicts the entry (no `invalidate` needed);
a `get` strictly before the expiry returns the stored value. -/
theorem ttl_cache_set_get (α : Type) (st : List (String × CacheEntry α))
    (k : String) (v : α) (ttl t0 t1 : ℚ) :
    alist_lookup k (cache_set ttl t0 st k v) = some ⟨v, t0 + ttl⟩
    ∧ (t0 + ttl ≤ t1 →
        (cache_get t1 (cache_set ttl t0 st k v) k).1 = none
        ∧ alist_lookup k (cache_get t1 (cache_set ttl t0 st k v) k).2 = none)
    ∧ (t1 < t0 + ttl →
        (cache_get t1 (cache_set ttl t0 st k v) k).1 = some v) := by
  have hset : alist_lookup k (cache_set ttl t0 st k v) = some ⟨v, t0 + ttl⟩ :=
    dict_insert_lookup st k ⟨v, t0 + ttl⟩
  refine ⟨hset, ?_, ?_⟩
  · intro h
    have hnlt : ¬(t1 < t0 + ttl) := not_lt.mpr h
    constructor
    · simp [cache_get, hset, hnlt]
    · simp only [cache_get, hset, hnlt, if_false]
      exact cache_delete_lookup _ k
  · intro h
    simp only [cache_get, hset, h, if_true]

/-- Witness for C9: with `ttl = 1` set at time 0, a read at time 1 misses
and a read at time 1/2 hits. -/
theorem ttl_cache_set_get_witness :
    (cache_get 1 (cache_set 1 0 ([] : List (String × CacheEntry ℕ)) "k" 0) "k").1 = none
    ∧ (cache_get (1 / 2) (cache_set 1 0 ([] : List (String × CacheEntry ℕ)) "k" 0) "k").1
        = some 0 :=
  ⟨((ttl_cache_set_get ℕ [] "k" 0 1 0 1).2.1 (by norm_num)).1,
   (ttl_cache_set_get ℕ [] "k" 0 1 0 (1 / 2)).2.2 (by norm_num)⟩

/-- A lookup misses exactly when the key is not among the dict's keys. -/
theorem alist_lookup_eq_none_iff {β : Type} (k : String) (d : List (String × β)) :
    alist_lookup k d = none ↔ k ∉ d.map Prod.fst := by
  induction d with
  | nil => simp [alist_lookup]
  | cons p rest ih =>
    by_cases h : k = p.1
    · simp [alist_lookup, h]
    · simp [alist_lookup, h, ih]

/-- Membership after a dict assignment: the new pair or an old one. -/
theorem dict_insert_mem {β : Type} (d : List (String × β)) (k : String) (v : β)
    (p : String × β) (h : p ∈ dict_insert d k v) : p = (k, v) ∨ p ∈ d := by
  unfold dict_insert at h
  by_cases hs : (alist_lookup k d).isSome
  · rw [if_pos hs] at h
    rcases List.mem_map.mp h with ⟨p₀, hp₀, heq⟩
    by_cases hk : p₀.1 = k
    · left
      rw [← heq, if_pos hk]
    · right
      rw [← heq, if_neg hk]
      exact hp₀
  · rw [if_neg hs] at h
    rcases List.mem_append.mp h with h' | h'
    · right
      exact h'
    · left
      simpa using h'

/-- Assigning a key that is already bound leaves the key list unchanged. -/
theorem dict_insert_keys_present {β : Type} (d : List (String × β)) (k : String)
    (v : β) (hs : (alist_lookup k d).isSome) :
    (dict_insert d k v).map Prod.fst = d.map Prod.fst := by
  unfold dict_insert
  rw [if_pos hs, List.map_map]
  apply List.map_congr_left
  intro p _
  by_cases hk : p.1 = k
  · simp only [Function.comp_apply, if_pos hk]
    exact hk.symm
  · simp only [Function.comp_apply, if_neg hk]

/-- Assigning an unbound key appends it to the key list. -/
theorem dict_insert_keys_absent {β : Type} (d : List (String × β)) (k : String)
    (v : β) (hn : alist_lookup k d = none) :
    (dict_insert d k v).map Prod.fst = d.map Prod.fst ++ [k] := by
  unfold dict_insert
  rw [if_neg (by rw [hn]; simp), List.map_append]
  rfl

/-- After a dict assignment the assigned key is among the keys. -/
theorem dict_insert_key_mem {β : Type} (d : List (String × β)) (k : String) (v : β) :
    k ∈ (dict_insert d k v).map Prod.fst := by
  by_cases hs : (alist_lookup k d).isSome
  · rw [dict_insert_keys_present d k v hs]
    by_contra hmem
    rw [(alist_lookup_eq_none_iff k d).mpr hmem] at hs
    simp at hs
  · rw [dict_insert_keys_absent d k v (Option.not_isSome_iff_eq_none.mp hs)]
    simp

/-- A dict assignment never drops keys. -/
theorem dict_insert_keys_mono {β : Type} (d : List (String × β)) (k k' : String)
    (v : β) (h : k' ∈ d.map Prod.fst) : k' ∈ (dict_insert d k v).map Prod.fst := by
  by_cases hs : (alist_lookup k d).isSome
  · rw [dict_insert_keys_present d k v hs]
    exact h
  · rw [dict_insert_keys_absent d k v (Option.not_isSome_iff_eq_none.mp hs)]
    exact List.mem_append.mpr (Or.inl h)

/-- A successful question-map lookup returns a catalog entry whose id is
the looked-up key. -/
theorem question_map_lookup_mem (questions : List Question) (k : String)
    (qi : Question) (h : question_map_lookup questions k = some qi) :
    qi ∈ questions ∧ qi.id = k := by
  unfold question_map_lookup at h
  refine ⟨List.mem_reverse.mp (List.mem_of_find?_eq_some h), ?_⟩
  have := List.find?_some h
  simpa using this

/-- With unique catalog ids, looking up a catalog entry's id finds it. -/
theorem question_map_lookup_self (questions : List Question) (q : Question)
    (hids : (questions.map Question.id).Nodup) (hq : q ∈ questions) :
    question_map_lookup questions q.id = some q := by
  have hpw : questions.Pairwise (fun a b => a.id ≠ b.id) := List.pairwise_map.mp hids
  unfold question_map_lookup
  cases hfind : questions.reverse.find? (fun q' => q'.id == q.id) with
  | none =>
    rw [List.find?_eq_none] at hfind
    exact absurd (by simp) (hfind q (List.mem_reverse.mpr hq))
  | some q' =>
    have hq'id : q'.id = q.id := by
      have := List.find?_some hfind
      simpa using this
    have hq'mem : q' ∈ questions := List.mem_reverse.mp (List.mem_of_find?_eq_some hfind)
    by_cases hne : q' = q
    · rw [hne]
    · exact absurd hq'id
        (List.Pairwise.forall (fun _ _ h => Ne.symm h) hpw hq'mem hq hne)

/-- A pair whose question id is not catalogued leaves the dicts unchanged. -/
theorem classify_step_none (questions : List Question)
    (acc : List (String × Contraindication) × List (String × Contraindication))
    (p : String × String) (h : question_map_lookup questions p.1 = none) :
    classify_step questions acc p = acc := by
  unfold classify_step
  by_cases hy : p.2 = "yes"
  · rw [if_pos hy, h]
  · rw [if_neg hy]

/-- An id bound by no catalog entry never resolves in the question map. -/
theorem question_map_lookup_unknown (questions : List Question) (qid : String)
    (h : ∀ q ∈ questions, q.id ≠ qid) :
    question_map_lookup questions qid = none := by
  unfold question_map_lookup
  rw [List.find?_eq_none]
  intro q hq
  simp only [beq_iff_eq]
  exact h q (List.mem_reverse.mp hq)

/-- One classification step preserves `cdicts_inv`. -/
theorem classify_step_inv (questions : List Question)
    (acc : List (String × Contraindication) × List (String × Contraindication))
    (p : String × String) (h : cdicts_inv questions acc) :
    cdicts_inv questions (classify_step questions acc p) := by
  obtain ⟨h1, h2, h3, h4⟩ := h
  unfold classify_step
  by_cases hy : p.2 = "yes"
  case neg =>
    rw [if_neg hy]
    exact ⟨h1, h2, h3, h4⟩
  rw [if_pos hy]
  cases hlk : question_map_lookup questions p.1 with
  | none => exact ⟨h1, h2, h3, h4⟩
  | some qi =>
    show cdicts_inv questions
      (if qi.category = "absolute" then
        (dict_insert acc.1 p.1 ⟨p.1, qi.question⟩, acc.2)
      else if qi.category = "relative" then
        (acc.1, dict_insert acc.2 p.1 ⟨p.1, qi.question⟩)
      else acc)
    by_cases habs : qi.category = "absolute"
    · rw [if_pos habs]
      refine ⟨?_, h2, ?_, h4⟩
      · by_cases hs : (alist_lookup p.1 acc.1).isSome
        · rw [dict_insert_keys_present _ _ _ hs]
          exact h1
        · have hnone := Option.not_isSome_iff_eq_none.mp hs
          rw [dict_insert_keys_absent _ _ _ hnone]
          refine List.Nodup.append h1 (List.nodup_singleton _) ?_
          intro x hx hx'
          rw [List.mem_singleton.mp hx'] at hx
          exact (alist_lookup_eq_none_iff p.1 acc.1).mp hnone hx
      · intro pr hpr
        rcases dict_insert_mem _ _ _ _ hpr with rfl | hmem
        · exact ⟨rfl, qi, hlk, habs⟩
        · exact h3 pr hmem
    · by_cases hrel : qi.category = "relative"
      · rw [if_neg habs, if_pos hrel]
        refine ⟨h1, ?_, h3, ?_⟩
        · by_cases hs : (alist_lookup p.1 acc.2).isSome
          · rw [dict_insert_keys_present _ _ _ hs]
            exact h2
          · have hnone := Option.not_isSome_iff_eq_none.mp hs
            rw [dict_insert_keys_absent _ _ _ hnone]
            refine List.Nodup.append h2 (List.nodup_singleton _) ?_
            intro x hx hx'
            rw [List.mem_singleton.mp hx'] at hx
            exact (alist_lookup_eq_none_iff p.1 acc.2).mp hnone hx
        · intro pr hpr
          rcases dict_insert_mem _ _ _ _ hpr with rfl | hmem
          · exact ⟨rfl, qi, hlk, hrel⟩
          · exact h4 pr hmem
      · rw [if_neg habs, if_neg hrel]
        exact ⟨h1, h2, h3, h4⟩

/-- The classification fold preserves `cdicts_inv`. -/
theorem foldl_classify_inv (questions : List Question)
    (latest : List (String × String)) :
    ∀ acc, cdicts_inv questions acc →
      cdicts_inv questions (latest.foldl (classify_step questions) acc) := by
  induction latest with
  | nil => exact fun acc h => h
  | cons p rest ih => exact fun acc h => ih _ (classify_step_inv questions acc p h)

/-- The contraindication dicts of any merged answer map satisfy the
invariant. -/
theorem contraindication_dicts_inv (questions : List Question)
    (latest : List (String × String)) :
    cdicts_inv questions (contraindication_dicts questions latest) := by
  have hnil : cdicts_inv questions ([], []) :=
    ⟨List.nodup_nil, List.nodup_nil,
     fun p hp => absurd hp (List.not_mem_nil p),
     fun p hp => absurd hp (List.not_mem_nil p)⟩
  unfold contraindication_dicts
  by_cases h : questions = []
  · rw [if_pos h]
    exact hnil
  · rw [if_neg h]
    exact foldl_classify_inv questions latest ([], []) hnil

/-- One classification step never drops keys from either dict. -/
theorem classify_step_keys_mono (questions : List Question)
    (acc : List (String × Contraindication) × List (String × Contraindication))
    (p : String × String) (k : String) :
    (k ∈ acc.1.map Prod.fst → k ∈ (classify_step questions acc p).1.map Prod.fst)
    ∧ (k ∈ acc.2.map Prod.fst → k ∈ (classify_step questions acc p).2.map Prod.fst) := by
  unfold classify_step
  by_cases hy : p.2 = "yes"
  case neg =>
    rw [if_neg hy]
    exact ⟨id, id⟩
  rw [if_pos hy]
  cases hlk : question_map_lookup questions p.1 with
  | none => exact ⟨id, id⟩
  | some qi =>
    show (k ∈ acc.1.map Prod.fst → k ∈ (if qi.category = "absolute" then
        (dict_insert acc.1 p.1 ⟨p.1, qi.question⟩, acc.2)
      else if qi.category = "relative" then
        (acc.1, dict_insert acc.2 p.1 ⟨p.1, qi.question⟩)
      else acc).1.map Prod.fst) ∧ (k ∈ acc.2.map Prod.fst → k ∈ (if qi.category = "absolute" then
        (dict_insert acc.1 p.1 ⟨p.1, qi.question⟩, acc.2)
      else if qi.category = "relative" then
        (acc.1, dict_insert acc.2 p.1 ⟨p.1, qi.question⟩)
      else acc).2.map Prod.fst)
    by_cases habs : qi.category = "absolute"
    · rw [if_pos habs]
      exact ⟨fun h => dict_insert_keys_mono _ _ _ _ h, id⟩
    · by_cases hrel : qi.category = "relative"
      · rw [if_neg habs, if_pos hrel]
        exact ⟨id, fun h => dict_insert_keys_mono _ _ _ _ h⟩
      · rw [if_neg habs, if_neg hrel]
        exact ⟨id, id⟩

/-- The classification fold never drops keys from either dict. -/
theorem foldl_classify_keys_mono (questions : List Question)
    (latest : List (String × String)) (k : String) :
    ∀ acc,
      (k ∈ acc.1.map Prod.fst →
        k ∈ (latest.foldl (classify_step questions) acc).1.map Prod.fst)
      ∧ (k ∈ acc.2.map Prod.fst →
        k ∈ (latest.foldl (classify_step questions) acc).2.map Prod.fst) := by
  induction latest with
  | nil => exact fun acc => ⟨id, id⟩
  | cons p rest ih =>
    intro acc
    rw [List.foldl_cons]
    exact ⟨fun h => (ih _).1 ((classify_step_keys_mono questions acc p k).1 h),
           fun h => (ih _).2 ((classify_step_keys_mono questions acc p k).2 h)⟩

/-- A merged `'yes'` on a catalogued absolute question puts its id among
the absolute dict's keys. -/
theorem foldl_classify_yes_abs (questions : List Question) (qi : Question)
    (k : String) (hlk : question_map_lookup questions k = some qi)
    (habs : qi.category = "absolute") :
    ∀ (latest : List (String × String)) acc, alist_lookup k latest = some "yes" →
      k ∈ (latest.foldl (classify_step questions) acc).1.map Prod.fst := by
  intro latest
  induction latest with
  | nil =>
    intro acc hyes
    simp [alist_lookup] at hyes
  | cons p rest ih =>
    intro acc hyes
    rw [List.foldl_cons]
    by_cases hk : k = p.1
    · have hp2 : p.2 = "yes" := by
        simp only [alist_lookup] at hyes
        rw [if_pos hk] at hyes
        exact Option.some.inj hyes
      have hstep : k ∈ (classify_step questions acc p).1.map Prod.fst := by
        unfold classify_step
        rw [if_pos hp2, ← hk, hlk]
        show k ∈ (if qi.category = "absolute" then
            (dict_insert acc.1 k ⟨k, qi.question⟩, acc.2)
          else if qi.category = "relative" then
            (acc.1, dict_insert acc.2 k ⟨k, qi.question⟩)
          else acc).1.map Prod.fst
        rw [if_pos habs]
        exact dict_insert_key_mem _ _ _
      exact (foldl_classify_keys_mono questions rest k _).1 hstep
    · have hyes' : alist_lookup k rest = some "yes" := by
        simp only [alist_lookup] at hyes
        rw [if_neg hk] at hyes
        exact hyes
      exact ih _ hyes'

/-- A merged `'yes'` on a catalogued relative question puts its id among
the relative dict's keys. -/
theorem foldl_classify_yes_rel (questions : List Question) (qi : Question)
    (k : String) (hlk : question_map_lookup questions k = some qi)
    (hrel : qi.category = "relative") :
    ∀ (latest : List (String × String)) acc, alist_lookup k latest = some "yes" →
      k ∈ (latest.foldl (classify_step questions) acc).2.map Prod.fst := by
  have hnabs : ¬(qi.category = "absolute") := by
    rw [hrel]
    simp
  intro latest
  induction latest with
  | nil =>
    intro acc hyes
    simp [alist_lookup] at hyes
  | cons p rest ih =>
    intro acc hyes
    rw [List.foldl_cons]
    by_cases hk : k = p.1
    · have hp2 : p.2 = "yes" := by
        simp only [alist_lookup] at hyes
        rw [if_pos hk] at hyes
        exact Option.some.inj hyes
      have hstep : k ∈ (classify_step questions acc p).2.map Prod.fst := by
        unfold classify_step
        rw [if_pos hp2, ← hk, hlk]
        show k ∈ (if qi.category = "absolute" then
            (dict_insert acc.1 k ⟨k, qi.question⟩, acc.2)
          else if qi.category = "relative" then
            (acc.1, dict_insert acc.2 k ⟨k, qi.question⟩)
          else acc).2.map Prod.fst
        rw [if_neg hnabs, if_pos hrel]
        exact dict_insert_key_mem _ _ _
      exact (foldl_classify_keys_mono questions rest k _).2 hstep
    · have hyes' : alist_lookup k rest = some "yes" := by
        simp only [alist_lookup] at hyes
        rw [if_neg hk] at hyes
        exact hyes
      exact ih _ hyes'

/-- C3: every question whose merged answer is the literal `'yes'` lands in
the bucket of its category; ids are unique across both buckets (one
contraindication per question id, however many submissions answered it);
and the computed status's flags equal non-emptiness of the lists. -/
theorem contraindication_classification (questions : List Question)
    (latest : List (String × String))
    (hids : (questions.map Question.id).Nodup) :
    (∀ q ∈ questions, alist_lookup q.id latest = some "yes" →
       (q.category = "absolute" →
         ∃ c ∈ (contraindication_dicts questions latest).1.map Prod.snd, c.id = q.id)
       ∧ (q.category = "relative" →
         ∃ c ∈ (contraindication_dicts questions latest).2.map Prod.snd, c.id = q.id))
    ∧ ((contraindication_dicts questions latest).1.map (fun p => p.2.id)
        ++ (contraindication_dicts questions latest).2.map (fun p => p.2.id)).Nodup
    ∧ (∀ qs checklist patient pid,
        ((compute_patient_status_from_all_questionnaires qs questions checklist patient
            pid).has_absolute = true
          ↔ (compute_patient_status_from_all_questionnaires qs questions checklist patient
            pid).absolute_contraindications ≠ [])
        ∧ ((compute_patient_status_from_all_questionnaires qs questions checklist patient
            pid).has_relative = true
          ↔ (compute_patient_status_from_all_questionnaires qs questions checklist patient
            pid).relative_contraindications ≠ [])) := by
  obtain ⟨h1, h2, h3, h4⟩ := contraindication_dicts_inv questions latest
  refine ⟨?_, ?_, ?_⟩
  · intro q hq hyes
    have hne : questions ≠ [] := List.ne_nil_of_mem hq
    have hlkq : question_map_lookup questions q.id = some q :=
      question_map_lookup_self questions q hids hq
    constructor
    · intro habs
      have hkey : q.id ∈ (contraindication_dicts questions latest).1.map Prod.fst := by
        unfold contraindication_dicts
        rw [if_neg hne]
        exact foldl_classify_yes_abs questions q q.id hlkq habs latest ([], []) hyes
      rcases List.mem_map.mp hkey with ⟨p, hp, hfst⟩
      exact ⟨p.2, List.mem_map_of_mem Prod.snd hp, by rw [(h3 p hp).1, hfst]⟩
    · intro hrel
      have hkey : q.id ∈ (contraindication_dicts questions latest).2.map Prod.fst := by
        unfold contraindication_dicts
        rw [if_neg hne]
        exact foldl_classify_yes_rel questions q q.id hlkq hrel latest ([], []) hyes
      rcases List.mem_map.mp hkey with ⟨p, hp, hfst⟩
      exact ⟨p.2, List.mem_map_of_mem Prod.snd hp, by rw [(h4 p hp).1, hfst]⟩
  · have e1 : (contraindication_dicts questions latest).1.map (fun p => p.2.id)
        = (contraindication_dicts questions latest).1.map Prod.fst :=
      List.map_congr_left (fun p hp => (h3 p hp).1)
    have e2 : (contraindication_dicts questions latest).2.map (fun p => p.2.id)
        = (contraindication_dicts questions latest).2.map Prod.fst :=
      List.map_congr_left (fun p hp => (h4 p hp).1)
    rw [e1, e2]
    refine List.Nodup.append h1 h2 ?_
    intro k hk1 hk2
    rcases List.mem_map.mp hk1 with ⟨p, hp, hpfst⟩
    rcases List.mem_map.mp hk2 with ⟨p', hp', hpfst'⟩
    obtain ⟨_, qa, hqa, hcata⟩ := h3 p hp
    obtain ⟨_, qr, hqr, hcatr⟩ := h4 p' hp'
    rw [hpfst] at hqa
    rw [hpfst'] at hqr
    rw [hqa] at hqr
    rw [← Option.some.inj hqr] at hcatr
    rw [hcata] at hcatr
    simp at hcatr
  · intro qs checklist patient pid
    by_cases hqs : qs = []
    · subst hqs
      constructor <;>
        simp [compute_patient_status_from_all_questionnaires, create_initial_status]
    · rw [compute_patient_status_from_all_questionnaires, if_neg hqs]
      constructor <;> simp [List.length_pos]

/-- Witness for C3: one absolute question answered `'yes'` produces a
contraindication with its id. -/
theorem contraindication_classification_witness :
    ∃ c ∈ (contraindication_dicts [⟨"q1", "absolute", "Q"⟩]
      [("q1", "yes")]).1.map Prod.snd, c.id = "q1" :=
  ((contraindication_classification [⟨"q1", "absolute", "Q"⟩] [("q1", "yes")]
      (by simp)).1 ⟨"q1", "absolute", "Q"⟩ (by simp) (by simp [alist_lookup])).1 rfl

/-- C10: a `'yes'` under a question id absent from the catalog is a
guarded no-op — removing all pairs with that id changes neither dict —
and every produced contraindication's id belongs to a catalog entry. -/
theorem classify_unknown_id_noop (questions : List Question)
    (latest : List (String × String)) (qid : String)
    (h : ∀ q ∈ questions, q.id ≠ qid) :
    contraindication_dicts questions latest
      = contraindication_dicts questions (latest.filter (fun p => !(p.1 == qid)))
    ∧ (∀ p ∈ (contraindication_dicts questions latest).1,
        ∃ q ∈ questions, q.id = p.2.id)
    ∧ (∀ p ∈ (contraindication_dicts questions latest).2,
        ∃ q ∈ questions, q.id = p.2.id) := by
  obtain ⟨_, _, h3, h4⟩ := contraindication_dicts_inv questions latest
  have hnone : question_map_lookup questions qid = none :=
    question_map_lookup_unknown questions qid h
  refine ⟨?_, ?_, ?_⟩
  · unfold contraindication_dicts
    by_cases hq : questions = []
    · rw [if_pos hq, if_pos hq]
    · rw [if_neg hq, if_neg hq]
      suffices hfold : ∀ (l : List (String × String)) acc,
          (l.filter (fun p => !(p.1 == qid))).foldl (classify_step questions) acc
            = l.foldl (classify_step questions) acc by
        rw [hfold latest ([], [])]
      intro l
      induction l with
      | nil => exact fun acc => rfl
      | cons p rest ih =>
        intro acc
        rw [List.filter_cons]
        by_cases hp : p.1 = qid
        · have hb : (!(p.1 == qid)) = false := by simp [hp]
          rw [hb]
          simp only [Bool.false_eq_true, if_false]
          rw [List.foldl_cons,
            classify_step_none questions acc p (by rw [hp]; exact hnone)]
          exact ih acc
        · have hb : (!(p.1 == qid)) = true := by simp [hp]
          rw [hb]
          simp only [if_true]
          rw [List.foldl_cons, List.foldl_cons]
          exact ih (classify_step questions acc p)
  · intro p hp
    obtain ⟨hid, qi, hqi, _⟩ := h3 p hp
    obtain ⟨hmem, hqid⟩ := question_map_lookup_mem questions p.1 qi hqi
    exact ⟨qi, hmem, by rw [hqid, hid]⟩
  · intro p hp
    obtain ⟨hid, qi, hqi, _⟩ := h4 p hp
    obtain ⟨hmem, hqid⟩ := question_map_lookup_mem questions p.1 qi hqi
    exact ⟨qi, hmem, by rw [hqid, hid]⟩

/-- Witness for C10: a `'yes'` for an uncatalogued id produces the same
dicts as if the pair were absent. -/
theorem classify_unknown_id_noop_witness :
    contraindication_dicts [⟨"q1", "absolute", "Q"⟩] [("zz", "yes")]
      = contraindication_dicts [⟨"q1", "absolute", "Q"⟩]
          ([("zz", "yes")].filter (fun p => !(p.1 == "zz"))) :=
  (classify_unknown_id_noop [⟨"q1", "absolute", "Q"⟩] [("zz", "yes")] "zz"
    (by simp)).1
